import Mathlib

/-!
# Verification of the traffic microsimulation core

A shallow embedding, in Lean 4, of the traffic simulation implemented in the
repository's `TrafficScene` component: the signal-phase state machine
(`updateTrafficLights`), the intelligent-driver-model car dynamics
(`updatePhysics`, two passes), the car initialisation (`initCars`) and the
network builder (`buildNetwork`).  Real-valued quantities of the source
(JavaScript floating point numbers) are embedded as real numbers; the
network-builder geometry, whose coordinates are all integral, is embedded
over the integers so that it stays executable.  Per-car randomness
(`Math.random()` draws) is embedded as explicit oracle functions supplied to
the operations, keyed by car id.
-/

noncomputable section

open scoped Classical

namespace Traffic

/-! ## Configuration constants (source lines 9-28, 292-295) -/

def PHYSICS_DT : ℝ := 1 / 60

def CAR_COUNT : ℕ := 500

def CAR_LENGTH : ℝ := 4.6

def MIN_GAP : ℝ := 2.0

def IDM_V0 : ℝ := 14.0

def IDM_T : ℝ := 1.6

def IDM_A : ℝ := 1.5

def IDM_B : ℝ := 2.5

def IDM_S0 : ℝ := 3.0

def T_GREEN : ℝ := 10

def T_YELLOW : ℝ := 4

def T_RED_CLEAR : ℝ := 2

def CYCLE : ℝ := (T_GREEN + T_YELLOW + T_RED_CLEAR) * 2

/-! ## Signal controller (`updateTrafficLights`, source lines 291-319)

The source keeps one timer per intersection, advances it by `dt` each tick
and recomputes the displayed colors from `timer % CYCLE`.  The three hex
colors `LIGHT_GREEN`, `LIGHT_AMBER`, `LIGHT_RED` are embedded as an
enumeration (`getTrafficLightState` maps them back to GREEN / YELLOW / RED,
an identity on this enumeration). -/

inductive LColor
  | red
  | amber
  | green
deriving DecidableEq

/-- JavaScript `x % y` for the nonnegative operands used by the simulation:
`rmod x y = x - y * ⌊x / y⌋`. -/
def rmod (x y : ℝ) : ℝ := x - y * ⌊x / y⌋

/-- The pair of displayed colors (NS, EW) as a function of an intersection's
timer, translated from the if-chain of `updateTrafficLights` (source lines
299-314; both colors start out `RED` and the final else keeps them so). -/
def lightPair (tm : ℝ) : LColor × LColor :=
  let t := rmod tm CYCLE
  if t < T_GREEN then (LColor.green, LColor.red)
  else if t < T_GREEN + T_YELLOW then (LColor.amber, LColor.red)
  else if t < T_GREEN + T_YELLOW + T_RED_CLEAR then (LColor.red, LColor.red)
  else if t < T_GREEN + T_YELLOW + T_RED_CLEAR + T_GREEN then (LColor.red, LColor.green)
  else if t < T_GREEN + T_YELLOW + T_RED_CLEAR + T_GREEN + T_YELLOW then
    (LColor.red, LColor.amber)
  else (LColor.red, LColor.red)

lemma rmod_nonneg (x y : ℝ) (hy : 0 < y) : 0 ≤ rmod x y := by
  have h := Int.floor_le (x / y)
  have : y * ⌊x / y⌋ ≤ y * (x / y) := by
    exact mul_le_mul_of_nonneg_left h (le_of_lt hy)
  have hxy : y * (x / y) = x := by field_simp
  unfold rmod
  linarith [hxy ▸ this]

lemma rmod_lt (x y : ℝ) (hy : 0 < y) : rmod x y < y := by
  have h := Int.lt_floor_add_one (x / y)
  have : y * (x / y) < y * (⌊x / y⌋ + 1) := by
    exact mul_lt_mul_of_pos_left h hy
  have hxy : y * (x / y) = x := by field_simp
  unfold rmod
  nlinarith [hxy ▸ this]

lemma rmod_add_right (x y : ℝ) (hy : y ≠ 0) : rmod (x + y) y = rmod x y := by
  unfold rmod
  have h1 : (x + y) / y = x / y + 1 := by field_simp
  rw [h1, Int.floor_add_one]
  push_cast
  ring

/-- C7: it is impossible, at any timer value (so in particular at every
reachable one), for the NS and EW signals to be simultaneously green or
simultaneously yellow; moreover the timer windows `[G+Y, G+Y+R)` (between
the NS green window and the EW green window) and `[2G+2Y+R, ...)` (after
the EW yellow window) display all-red. -/
theorem signals_never_conflict (tm : ℝ) :
    (¬ ((lightPair tm).1 = LColor.green ∧ (lightPair tm).2 = LColor.green)) ∧
    (¬ ((lightPair tm).1 = LColor.amber ∧ (lightPair tm).2 = LColor.amber)) ∧
    (T_GREEN + T_YELLOW ≤ rmod tm CYCLE → rmod tm CYCLE < T_GREEN + T_YELLOW + T_RED_CLEAR →
      lightPair tm = (LColor.red, LColor.red)) ∧
    (T_GREEN + T_YELLOW + T_RED_CLEAR + T_GREEN + T_YELLOW ≤ rmod tm CYCLE →
      lightPair tm = (LColor.red, LColor.red)) := by
  unfold lightPair
  simp only [T_GREEN, T_YELLOW, T_RED_CLEAR] at *
  split_ifs with h1 h2 h3 h4 h5 <;>
    refine ⟨by simp, by simp, ?_, ?_⟩ <;> intros <;> first | rfl | linarith

lemma rmod_eq_self (x y : ℝ) (h0 : 0 ≤ x) (hxy : x < y) : rmod x y = x := by
  have hy : 0 < y := lt_of_le_of_lt h0 hxy
  have hfl : ⌊x / y⌋ = 0 := by
    apply Int.floor_eq_zero_iff.mpr
    constructor
    · exact div_nonneg h0 (le_of_lt hy)
    · rw [div_lt_one hy]; exact hxy
  unfold rmod
  rw [hfl]
  simp

/-- Witness for `signals_never_conflict`: at timer 15 (inside the first
all-red clearance window) both signals are red. -/
theorem signals_never_conflict_witness :
    lightPair 15 = (LColor.red, LColor.red) := by
  have h := (signals_never_conflict 15).2.2.1
  have hmod : rmod 15 CYCLE = 15 := by
    apply rmod_eq_self <;> norm_num [CYCLE, T_GREEN, T_YELLOW, T_RED_CLEAR]
  apply h <;> rw [hmod] <;> norm_num [T_GREEN, T_YELLOW, T_RED_CLEAR]

/-- Modelled from the spec: the six-phase table of §4.2 as a function of the
elapsed time `u` within the cycle — NS green on `[0,G)`, NS yellow on
`[G,G+Y)`, all-red on `[G+Y,G+Y+R)`, EW green on `[G+Y+R,2G+Y+R)`, EW yellow
on `[2G+Y+R,2G+2Y+R)`, all-red on the remainder.  Used to compare the
implementation's color computation against the specified table. -/
def specPhaseTable (u : ℝ) : LColor × LColor :=
  if 0 ≤ u ∧ u < T_GREEN then (LColor.green, LColor.red)
  else if T_GREEN ≤ u ∧ u < T_GREEN + T_YELLOW then (LColor.amber, LColor.red)
  else if T_GREEN + T_YELLOW ≤ u ∧ u < T_GREEN + T_YELLOW + T_RED_CLEAR then
    (LColor.red, LColor.red)
  else if T_GREEN + T_YELLOW + T_RED_CLEAR ≤ u ∧
      u < 2 * T_GREEN + T_YELLOW + T_RED_CLEAR then (LColor.red, LColor.green)
  else if 2 * T_GREEN + T_YELLOW + T_RED_CLEAR ≤ u ∧
      u < 2 * T_GREEN + 2 * T_YELLOW + T_RED_CLEAR then (LColor.red, LColor.amber)
  else (LColor.red, LColor.red)

/-- C8: the displayed color pair is a pure function of `timer mod CYCLE`
following the six-phase table, and the color sequence repeats exactly with
period `CYCLE = 2·(G+Y+R) = 32` seconds. -/
theorem signal_periodic_table (tm : ℝ) :
    lightPair (tm + CYCLE) = lightPair tm ∧
    lightPair tm = specPhaseTable (rmod tm CYCLE) := by
  have hcyc : (0 : ℝ) < CYCLE := by unfold CYCLE T_GREEN T_YELLOW T_RED_CLEAR; norm_num
  constructor
  · unfold lightPair
    rw [rmod_add_right tm CYCLE (ne_of_gt hcyc)]
  · have h0 := rmod_nonneg tm CYCLE hcyc
    have h1 := rmod_lt tm CYCLE hcyc
    simp only [lightPair, specPhaseTable]
    set u := rmod tm CYCLE with hu
    norm_num [CYCLE, T_GREEN, T_YELLOW, T_RED_CLEAR] at h0 h1 ⊢
    by_cases c1 : u < 10
    · simp [c1, h0]
    · have c1' := not_lt.mp c1
      by_cases c2 : u < 14
      · simp [c1, c2, c1']
      · have c2' := not_lt.mp c2
        by_cases c3 : u < 16
        · simp [c1, c2, c3, c2']
        · have c3' := not_lt.mp c3
          by_cases c4 : u < 26
          · simp [c1, c2, c3, c4, c3']
          · have c4' := not_lt.mp c4
            by_cases c5 : u < 30
            · simp [c1, c2, c3, c4, c5, c4']
            · have c5' := not_lt.mp c5
              simp [c1, c2, c3, c4, c5, c5', not_lt.mpr (le_of_lt h1)]

/-! ## The IDM acceleration computation (source lines 352-354 and 397-398) -/

/-- Gap to the leader on the same lane: `leader.t - car.t - CAR_LENGTH`
(source line 353). -/
def leaderGap (leaderT selfT : ℝ) : ℝ := leaderT - selfT - CAR_LENGTH

/-- Closing speed to the leader: `car.v - leader.v` (source line 354). -/
def leaderDv (selfV leaderV : ℝ) : ℝ := selfV - leaderV

/-- Desired minimum spacing (source line 397):
`s* = IDM_S0 + max(0, v·IDM_T + v·dv / (2·√(IDM_A·IDM_B)))`. -/
def idmSStar (v dv : ℝ) : ℝ :=
  IDM_S0 + max 0 (v * IDM_T + v * dv / (2 * Real.sqrt (IDM_A * IDM_B)))

/-- IDM acceleration (source line 398):
`acc = IDM_A · (1 - (v/IDM_V0)^4 - (s*/max(0.1, gap))^2)`. -/
def idmAcc (v gap sStar : ℝ) : ℝ :=
  IDM_A * (1 - (v / IDM_V0) ^ 4 - (sStar / max 0.1 gap) ^ 2)

lemma sqrtAB_gt : 1.936 < Real.sqrt (IDM_A * IDM_B) := by
  rw [show IDM_A * IDM_B = 3.75 by norm_num [IDM_A, IDM_B]]
  have := (Real.lt_sqrt (by norm_num : (0:ℝ) ≤ 1.936)).mpr
    (by norm_num : (1.936 : ℝ) ^ 2 < 3.75)
  exact this

lemma sqrtAB_lt : Real.sqrt (IDM_A * IDM_B) < 1.937 := by
  rw [show IDM_A * IDM_B = 3.75 by norm_num [IDM_A, IDM_B]]
  exact (Real.sqrt_lt' (by norm_num)).mpr (by norm_num)

lemma sStar_scenario_bounds :
    39.85 < idmSStar 14 4 ∧ idmSStar 14 4 < 39.87 := by
  have h1 := sqrtAB_gt
  have h2 := sqrtAB_lt
  have hs : 0 < Real.sqrt (IDM_A * IDM_B) := by linarith
  unfold idmSStar IDM_S0 IDM_T
  have hinner : (0:ℝ) ≤ 14 * 1.6 + 14 * 4 / (2 * Real.sqrt (IDM_A * IDM_B)) := by
    have : 0 ≤ 14 * 4 / (2 * Real.sqrt (IDM_A * IDM_B)) := by positivity
    linarith
  rw [max_eq_right hinner]
  have hd1 : 14 * 4 / (2 * Real.sqrt (IDM_A * IDM_B)) < 28 / 1.936 := by
    rw [div_lt_div_iff₀ (by positivity) (by norm_num)]
    nlinarith
  have hd2 : (28:ℝ) / 1.937 < 14 * 4 / (2 * Real.sqrt (IDM_A * IDM_B)) := by
    rw [div_lt_div_iff₀ (by norm_num) (by positivity)]
    nlinarith
  constructor <;> nlinarith

lemma acc_scenario_bounds :
    -1.157 < idmAcc 14 (leaderGap 50 0) (idmSStar 14 4) ∧
    idmAcc 14 (leaderGap 50 0) (idmSStar 14 4) < -1.155 := by
  obtain ⟨hlo, hhi⟩ := sStar_scenario_bounds
  have hS : 0 < idmSStar 14 4 := by linarith
  have hsq1 : idmSStar 14 4 ^ 2 < 39.87 ^ 2 := by nlinarith
  have hsq2 : (39.85:ℝ) ^ 2 < idmSStar 14 4 ^ 2 := by nlinarith
  have hgap : leaderGap 50 0 = 45.4 := by norm_num [leaderGap, CAR_LENGTH]
  rw [hgap]
  unfold idmAcc IDM_A IDM_V0
  rw [show max (0.1:ℝ) 45.4 = 45.4 from max_eq_right (by norm_num), div_pow]
  norm_num
  constructor <;> nlinarith

/-- C5 counterexample: with the worked scenario's inputs (`v = 14`,
`Δv = 4`, `gap = 45.4`), the desired spacing is *not* the spec's claimed
45.8 and the resulting acceleration is *not* ≈ −1.53. -/
theorem scenario_spec_values_wrong :
    idmSStar 14 4 ≠ 45.8 ∧
    idmAcc 14 (leaderGap 50 0) (idmSStar 14 4) ≠ -1.53 := by
  obtain ⟨hlo, hhi⟩ := sStar_scenario_bounds
  obtain ⟨halo, hahi⟩ := acc_scenario_bounds
  constructor
  · intro h; rw [h] at hhi; norm_num at hhi
  · intro h; rw [h] at halo; norm_num at halo

/-- C5 amended: for the worked scenario (leader `t=50, v=10`, follower
`t=0, v=14`), the gap is 45.4 and `Δv = 4` as the spec says, but the
desired spacing is `s* = 3 + 22.4 + 28/√3.75 ≈ 39.86` (not 45.8) and the
acceleration is ≈ −1.156 (not −1.53). -/
theorem scenario_corrected :
    leaderGap 50 0 = 45.4 ∧ leaderDv 14 10 = 4 ∧
    39.85 < idmSStar 14 4 ∧ idmSStar 14 4 < 39.87 ∧
    -1.157 < idmAcc 14 (leaderGap 50 0) (idmSStar 14 4) ∧
    idmAcc 14 (leaderGap 50 0) (idmSStar 14 4) < -1.155 := by
  obtain ⟨hlo, hhi⟩ := sStar_scenario_bounds
  obtain ⟨halo, hahi⟩ := acc_scenario_bounds
  exact ⟨by norm_num [leaderGap, CAR_LENGTH], by norm_num [leaderDv], hlo, hhi, halo, hahi⟩

/-! ## Data model for the dynamics (source lines 47-78)

Lane ids are embedded as natural numbers.  A lane record keeps the fields
the dynamics reads: `type`, `len`, `nextLanes`, `toNodeId`, `direction`
(the source's `path` curve and the `prevLanes` field are rendering-only in
`updatePhysics` and are never read by it).  The source accesses lanes via
`lanes.get(id)!` — a partial map whose lookups are asserted to succeed — so
the lane table is embedded as a total function.  `laneIds` records the
map's key set in insertion order (used to filter respawn / start lanes).
The `Car` fields `active` and `color` are rendering-only and omitted. -/

inductive LaneTy
  | road
  | junction
deriving DecidableEq

inductive RoadDir
  | NS
  | EW
deriving DecidableEq

structure Lane where
  typ : LaneTy
  len : ℝ
  nextLanes : List ℕ
  toNodeId : Option ℕ
  direction : Option RoadDir

structure Car where
  id : ℕ
  laneId : ℕ
  t : ℝ
  v : ℝ
  a : ℝ
  targetLaneId : Option ℕ

structure Net where
  lanes : ℕ → Lane
  laneIds : List ℕ

/-- The ROAD-lane ids of the network.  The source's respawn filters the
lane-map keys with `startsWith('R_')`; road-lane keys and only they carry
the prefix, so this is the filter by lane type. -/
def roadIds (net : Net) : List ℕ :=
  net.laneIds.filter (fun l => (net.lanes l).typ = LaneTy.road)

/-- Simulation state owned by `updatePhysics`: the car array and the
per-intersection signal timers. -/
structure SimState where
  cars : List Car
  lights : ℕ → ℝ

/-- `getTrafficLightState` (source lines 321-330): a lane that is not a
ROAD lane, or lacks a destination node or a direction tag, reads GREEN;
otherwise the color displayed for the lane's approach axis at its
destination intersection. -/
def getTrafficLightState (net : Net) (lights : ℕ → ℝ) (lid : ℕ) : LColor :=
  let lane := net.lanes lid
  match lane.typ, lane.toNodeId, lane.direction with
  | LaneTy.road, some node, some RoadDir.NS => (lightPair (lights node)).1
  | LaneTy.road, some node, some RoadDir.EW => (lightPair (lights node)).2
  | _, _, _ => LColor.green

/-! ## Pass 1: perceive and decide acceleration (source lines 336-405)

`updatePhysics` first partitions the cars by lane and sorts each group by
descending `t` (source lines 336-341).  JavaScript's `Array.prototype.sort`
is stable, so ties keep list order; the embedding uses a stable insertion
sort with the same comparison `b.t - a.t`. -/

/-- Stable descending-by-`t` insert: the new element goes before the first
element whose `t` is not greater than its own. -/
def insertByT (c : Car) : List Car → List Car
  | [] => [c]
  | d :: ds => if c.t < d.t then d :: insertByT c ds else c :: d :: ds

/-- Stable sort by descending `t` (JavaScript `sort((a,b) => b.t - a.t)`). -/
def sortByT : List Car → List Car
  | [] => []
  | c :: cs => insertByT c (sortByT cs)

/-- The per-lane car groups (`carsByLane`), computed once per tick from the
car array before any pass-1 mutation (source lines 336-341). -/
def laneGroups (cars : List Car) (lid : ℕ) : List Car :=
  sortByT (cars.filter (fun c => c.laneId = lid))

/-- Live speed lookup: pass 1 reads `leader.v` / `lastCar.v` through object
references into the mutating car array, so speeds are read from the current
state, keyed by car id. -/
def vOf (s : List Car) (i : ℕ) : ℝ :=
  match s.find? (fun c => c.id = i) with
  | some c => c.v
  | none => 0

/-- Pass-1 perception for one car (source lines 343-395): returns the
perceived `(gap, dv, targetLaneId)`.  `groups` is the frozen per-lane
partition (positions `t` are not mutated during pass 1, so its `t` fields
stay valid); `vLive` reads the current speed of another car; `ρ` is the
per-car random oracle for the green-light successor choice
(`Math.floor(Math.random() * n)`, a value in `[0, n)`, embedded as
`ρ id % n`). -/
def perceive (net : Net) (lights : ℕ → ℝ) (groups : ℕ → List Car)
    (vLive : ℕ → ℝ) (ρ : ℕ → ℕ) (c : Car) : ℝ × ℝ × Option ℕ :=
  let lane := net.lanes c.laneId
  let peers := groups c.laneId
  let idx := peers.findIdx (fun x => x.id = c.id)
  match if 0 < idx then peers[idx - 1]? else none with
  | some ld => (leaderGap ld.t c.t, leaderDv c.v (vLive ld.id), c.targetLaneId)
  | none =>
    let distToEnd := lane.len - c.t
    match lane.typ with
    | LaneTy.road =>
      match getTrafficLightState net lights c.laneId with
      | LColor.green =>
        let tgt := if c.targetLaneId = none ∧ lane.nextLanes ≠ [] then
            some (lane.nextLanes.getD (ρ c.id % lane.nextLanes.length) 0)
          else c.targetLaneId
        match tgt with
        | some tl =>
          match (groups tl).getLast? with
          | some lastCar =>
            let vg := distToEnd + lastCar.t - CAR_LENGTH
            if vg < 50 then (vg, c.v - vLive lastCar.id, tgt) else (500, 0, tgt)
          | none => (500, 0, tgt)
        | none => (500, 0, tgt)
      | _ => (distToEnd - 2.0, c.v, c.targetLaneId)
    | LaneTy.junction =>
      let tgt := if c.targetLaneId = none ∧ lane.nextLanes ≠ [] then
          some (lane.nextLanes.getD 0 0)
        else c.targetLaneId
      match tgt with
      | some tl =>
        match (groups tl).getLast? with
        | some lastCar => (distToEnd + lastCar.t - CAR_LENGTH, c.v - vLive lastCar.id, tgt)
        | none => (500, 0, tgt)
      | none => (500, 0, tgt)

/-- The gap a car perceives, as a function of the frozen snapshot only:
pass 1 mutates only speeds (hard-stop clamp) and the processed car's own
`a`/`targetLaneId`, and the perceived gap reads none of those, so it does
not depend on `vLive` (see `perceive_gap_vLive` below). -/
def gapOf (net : Net) (lights : ℕ → ℝ) (groups : ℕ → List Car)
    (ρ : ℕ → ℕ) (c : Car) : ℝ :=
  (perceive net lights groups (fun _ => 0) ρ c).1

/-- Pass-1 update of one car (source lines 397-404): compute the IDM
acceleration; if the perceived gap is below `MIN_GAP`, override with the
emergency clamp `acc = -IDM_B·4` and snap `v = 0`; store `a`. -/
def p1step (net : Net) (lights : ℕ → ℝ) (groups : ℕ → List Car)
    (vLive : ℕ → ℝ) (ρ : ℕ → ℕ) (c : Car) : Car :=
  let gdt := perceive net lights groups vLive ρ c
  let gap := gdt.1
  let dv := gdt.2.1
  let tgt := gdt.2.2
  if gap < MIN_GAP then { c with v := 0, a := -IDM_B * 4, targetLaneId := tgt }
  else { c with a := idmAcc c.v gap (idmSStar c.v dv), targetLaneId := tgt }

/-- Pass 1 over the car array (source lines 343-405): the source's
`forEach` iterates the array in order, mutating each visited car in place;
the embedding threads the processed prefix (`done`) so that live speed
reads (`vLive`) observe the mutations of earlier iterations, and returns
the processed remainder. -/
def runPass1 (net : Net) (lights : ℕ → ℝ) (groups : ℕ → List Car)
    (ρ : ℕ → ℕ) : List Car → List Car → List Car
  | _done, [] => []
  | done, c :: rest =>
    let c' := p1step net lights groups (vOf (done ++ c :: rest)) ρ c
    c' :: runPass1 net lights groups ρ (done ++ [c']) rest

/-! ## Pass 2: integrate (source lines 407-429) -/

/-- Pass-2 update of one car (source lines 407-424): clamp a negative `a`
at standstill, integrate `v` (floored at 0) and `t`, and on overrunning the
lane end either transition to the committed target lane (carrying the
overshoot) or respawn at the start of a random ROAD lane.  `σ` is the
per-car respawn oracle (`Math.floor(Math.random() * keys.length)`).  Each
pass-2 iteration reads and writes only the visited car, so the in-place
`forEach` is a map.  (The color update of source lines 426-428 is
rendering-only and omitted.) -/
def p2step (net : Net) (σ : ℕ → ℕ) (dt : ℝ) (c : Car) : Car :=
  let a1 := if c.v = 0 ∧ c.a < 0 then 0 else c.a
  let v1 := max 0 (c.v + a1 * dt)
  let t1 := c.t + v1 * dt
  let lane := net.lanes c.laneId
  if t1 ≥ lane.len then
    match c.targetLaneId with
    | some tgt =>
      { c with t := t1 - lane.len, laneId := tgt, v := v1, a := a1, targetLaneId := none }
    | none =>
      { c with t := 0, laneId := (roadIds net).getD (σ c.id % (roadIds net).length) 0,
               v := v1, a := a1 }
  else { c with t := t1, v := v1, a := a1 }

/-- One simulation tick, `updatePhysics(dt)` (source lines 332-430): advance
every signal timer by `dt` (`updateTrafficLights`, whose displayed colors
pass 1 then reads), build the per-lane groups from the car array, run
pass 1 in array order, then pass 2. -/
def updatePhysics (net : Net) (ρ σ : ℕ → ℕ) (dt : ℝ) (s : SimState) : SimState :=
  let lights' := fun n => s.lights n + dt
  let groups := laneGroups s.cars
  let cars1 := runPass1 net lights' groups ρ [] s.cars
  { cars := cars1.map (p2step net σ dt), lights := lights' }

/-! ## Structural lemmas about the two passes -/

lemma runPass1_length (net : Net) (lights : ℕ → ℝ) (groups : ℕ → List Car)
    (ρ : ℕ → ℕ) (pending done : List Car) :
    (runPass1 net lights groups ρ done pending).length = pending.length := by
  induction pending generalizing done with
  | nil => rfl
  | cons c rest ih => simp [runPass1, ih]

lemma updatePhysics_length (net : Net) (ρ σ : ℕ → ℕ) (dt : ℝ) (s : SimState) :
    (updatePhysics net ρ σ dt s).cars.length = s.cars.length := by
  simp [updatePhysics, runPass1_length]

/-- The perceived gap and the committed target lane do not depend on the
live speed view: pass 1 only ever mutates speeds (and the processed car's
own `a`/`targetLaneId`), and neither the gap nor the target choice reads a
speed of another car. -/
lemma perceive_gap_target_vLive (net : Net) (lights : ℕ → ℝ)
    (groups : ℕ → List Car) (ρ : ℕ → ℕ) (c : Car) (vL vL' : ℕ → ℝ) :
    (perceive net lights groups vL ρ c).1 = (perceive net lights groups vL' ρ c).1 ∧
    (perceive net lights groups vL ρ c).2.2 = (perceive net lights groups vL' ρ c).2.2 := by
  constructor <;>
  · simp only [perceive]
    repeat' split <;> try rfl

lemma perceive_gap_eq_gapOf (net : Net) (lights : ℕ → ℝ)
    (groups : ℕ → List Car) (ρ : ℕ → ℕ) (c : Car) (vL : ℕ → ℝ) :
    (perceive net lights groups vL ρ c).1 = gapOf net lights groups ρ c :=
  (perceive_gap_target_vLive net lights groups ρ c vL (fun _ => 0)).1

/-- A clamped pass-1 step: whenever the perceived gap is below `MIN_GAP`,
pass 1 zeroes the speed and stores the emergency deceleration. -/
lemma p1step_clamped (net : Net) (lights : ℕ → ℝ) (groups : ℕ → List Car)
    (vL : ℕ → ℝ) (ρ : ℕ → ℕ) (c : Car)
    (h : gapOf net lights groups ρ c < MIN_GAP) :
    (p1step net lights groups vL ρ c).v = 0 ∧
    (p1step net lights groups vL ρ c).a = -IDM_B * 4 := by
  simp only [p1step]
  rw [perceive_gap_eq_gapOf net lights groups ρ c vL]
  rw [if_pos h]
  exact ⟨rfl, rfl⟩

lemma runPass1_clamped (net : Net) (lights : ℕ → ℝ) (groups : ℕ → List Car)
    (ρ : ℕ → ℕ) (pending : List Car) :
    ∀ (done : List Car) (k : ℕ) (hk : k < pending.length),
      gapOf net lights groups ρ (pending.get ⟨k, hk⟩) < MIN_GAP →
      ∀ hk' : k < (runPass1 net lights groups ρ done pending).length,
        ((runPass1 net lights groups ρ done pending).get ⟨k, hk'⟩).v = 0 ∧
        ((runPass1 net lights groups ρ done pending).get ⟨k, hk'⟩).a = -IDM_B * 4 := by
  induction pending with
  | nil => intro done k hk; exact absurd hk (by simp)
  | cons c rest ih =>
    intro done k hk hgap hk'
    cases k with
    | zero =>
      simp only [runPass1, List.get_cons_zero]
      exact p1step_clamped net lights groups _ ρ c hgap
    | succ k =>
      simp only [runPass1, List.get_cons_succ]
      exact ih _ k (by simpa using hk) (by simpa using hgap) _

/-- A car entering pass 2 at standstill with a negative stored acceleration
ends the pass with `v = 0` and `a = 0`: the first line of pass 2 clamps the
negative acceleration to 0 (source line 408). -/
lemma p2step_of_stopped (net : Net) (σ : ℕ → ℕ) (dt : ℝ) (c : Car)
    (hv : c.v = 0) (ha : c.a < 0) :
    (p2step net σ dt c).v = 0 ∧ (p2step net σ dt c).a = 0 := by
  simp only [p2step]
  have h1 : (if c.v = 0 ∧ c.a < 0 then (0:ℝ) else c.a) = 0 := if_pos ⟨hv, ha⟩
  rw [h1, hv]
  norm_num
  split
  · split <;> simp
  · simp

lemma clamp_end_state (net : Net) (ρ σ : ℕ → ℕ) (dt : ℝ) (s : SimState)
    (k : ℕ) (hk : k < s.cars.length)
    (hgap : gapOf net (fun n => s.lights n + dt) (laneGroups s.cars) ρ
      (s.cars.get ⟨k, hk⟩) < MIN_GAP) :
    ∀ hk' : k < (updatePhysics net ρ σ dt s).cars.length,
      ((updatePhysics net ρ σ dt s).cars.get ⟨k, hk'⟩).v = 0 ∧
      ((updatePhysics net ρ σ dt s).cars.get ⟨k, hk'⟩).a = 0 := by
  intro hk'
  have hk1 : k < (runPass1 net (fun n => s.lights n + dt) (laneGroups s.cars) ρ [] s.cars).length := by
    rw [runPass1_length]; exact hk
  have h1 := runPass1_clamped net (fun n => s.lights n + dt) (laneGroups s.cars) ρ
    s.cars [] k hk hgap hk1
  have hmap : (updatePhysics net ρ σ dt s).cars.get ⟨k, hk'⟩ =
      p2step net σ dt ((runPass1 net (fun n => s.lights n + dt) (laneGroups s.cars) ρ [] s.cars).get ⟨k, hk1⟩) := by
    simp [updatePhysics]
  rw [hmap]
  set c1 := (runPass1 net (fun n => s.lights n + dt) (laneGroups s.cars) ρ [] s.cars).get ⟨k, hk1⟩
  obtain ⟨hv, ha⟩ := h1
  have haneg : c1.a < 0 := by rw [ha]; norm_num [IDM_B]
  exact p2step_of_stopped net σ dt c1 hv haneg

/-- C1 amended: if a car's perceived gap in some tick is below `MIN_GAP`,
then at the end of that tick its speed is exactly 0 — but its stored
acceleration is 0, not the emergency value `-IDM_B·4`: pass 2 begins with
`if (v === 0 && a < 0) a = 0`, which erases the emergency value stored by
pass 1 before it is ever integrated. -/
theorem clamp_zeroes_speed (net : Net) (ρ σ : ℕ → ℕ) (dt : ℝ) (s : SimState)
    (k : ℕ) (hk : k < s.cars.length)
    (hgap : gapOf net (fun n => s.lights n + dt) (laneGroups s.cars) ρ
      (s.cars.get ⟨k, hk⟩) < MIN_GAP) :
    ∀ hk' : k < (updatePhysics net ρ σ dt s).cars.length,
      ((updatePhysics net ρ σ dt s).cars.get ⟨k, hk'⟩).v = 0 ∧
      ((updatePhysics net ρ σ dt s).cars.get ⟨k, hk'⟩).a = 0 :=
  clamp_end_state net ρ σ dt s k hk hgap

/-! ### A concrete clamped tick

A single car on a 10-unit ROAD lane at `t = 9.5`, approaching its
intersection during the all-red window (timer 14): the perceived gap is
`(10 - 9.5) - 2 = -1.5 < MIN_GAP`. -/

def oracle0 : ℕ → ℕ := fun _ => 0

def lane1 : Lane := ⟨LaneTy.road, 10, [], some 0, some RoadDir.NS⟩

def net1 : Net := ⟨fun _ => lane1, [5]⟩

def car1 : Car := ⟨0, 5, 9.5, 7, 0, none⟩

def s1 : SimState := ⟨[car1], fun _ => 14⟩

lemma lightPair_allred_first (tm : ℝ) (h1 : 14 ≤ rmod tm CYCLE)
    (h2 : rmod tm CYCLE < 16) : lightPair tm = (LColor.red, LColor.red) := by
  unfold lightPair
  norm_num [CYCLE, T_GREEN, T_YELLOW, T_RED_CLEAR] at *
  split_ifs <;> first | rfl | linarith

lemma signal_s1 :
    getTrafficLightState net1 (fun n => s1.lights n + PHYSICS_DT) 5 = LColor.red := by
  have hm : rmod (14 + PHYSICS_DT) CYCLE = 14 + PHYSICS_DT :=
    rmod_eq_self _ _ (by norm_num [PHYSICS_DT])
      (by norm_num [PHYSICS_DT, CYCLE, T_GREEN, T_YELLOW, T_RED_CLEAR])
  have hlp := lightPair_allred_first (14 + PHYSICS_DT)
    (by rw [hm]; norm_num [PHYSICS_DT]) (by rw [hm]; norm_num [PHYSICS_DT])
  simp [getTrafficLightState, net1, lane1, s1, hlp]

lemma gap_s1 :
    gapOf net1 (fun n => s1.lights n + PHYSICS_DT) (laneGroups s1.cars) oracle0 car1
      = -1.5 := by
  have hsig := signal_s1
  simp only [gapOf, perceive, laneGroups, s1, car1, net1, lane1, sortByT, insertByT,
    List.filter, List.findIdx] at *
  norm_num [List.findIdx.go, hsig]

/-- C1 counterexample: for the concrete clamped tick above, the claim's
asserted end-of-tick acceleration `-IDM_B·4` is wrong — the code ends the
tick with `a = 0` (the speed is indeed 0). -/
theorem clamp_claim_cex :
    gapOf net1 (fun n => s1.lights n + PHYSICS_DT) (laneGroups s1.cars) oracle0 car1
        < MIN_GAP ∧
    ((updatePhysics net1 oracle0 oracle0 PHYSICS_DT s1).cars.getD 0 car1).v = 0 ∧
    ((updatePhysics net1 oracle0 oracle0 PHYSICS_DT s1).cars.getD 0 car1).a = 0 ∧
    ((updatePhysics net1 oracle0 oracle0 PHYSICS_DT s1).cars.getD 0 car1).a ≠ -IDM_B * 4 := by
  have hk : 0 < s1.cars.length := by norm_num [s1]
  have hgap : gapOf net1 (fun n => s1.lights n + PHYSICS_DT) (laneGroups s1.cars) oracle0
      (s1.cars.get ⟨0, hk⟩) < MIN_GAP := by
    have he : s1.cars.get ⟨0, hk⟩ = car1 := rfl
    rw [he, gap_s1]; norm_num [MIN_GAP]
  have hk' : 0 < (updatePhysics net1 oracle0 oracle0 PHYSICS_DT s1).cars.length := by
    rw [updatePhysics_length]; exact hk
  obtain ⟨hv, ha⟩ := clamp_end_state net1 oracle0 oracle0 PHYSICS_DT s1 0 hk hgap hk'
  have hgd : (updatePhysics net1 oracle0 oracle0 PHYSICS_DT s1).cars.getD 0 car1 =
      (updatePhysics net1 oracle0 oracle0 PHYSICS_DT s1).cars.get ⟨0, hk'⟩ := by
    rw [List.getD_eq_getElem?_getD, List.getElem?_eq_getElem hk']
    simp
  refine ⟨by rw [show s1.cars.get ⟨0, hk⟩ = car1 from rfl] at hgap; exact hgap, ?_, ?_, ?_⟩ <;>
    rw [hgd]
  · exact hv
  · exact ha
  · rw [ha]; norm_num [IDM_B]

/-- Witness for `clamp_zeroes_speed`: the amended theorem applied to the
concrete clamped tick. -/
theorem clamp_zeroes_speed_witness :
    ((updatePhysics net1 oracle0 oracle0 PHYSICS_DT s1).cars.getD 0 car1).v = 0 ∧
    ((updatePhysics net1 oracle0 oracle0 PHYSICS_DT s1).cars.getD 0 car1).a = 0 := by
  have hk : 0 < s1.cars.length := by norm_num [s1]
  have hgap : gapOf net1 (fun n => s1.lights n + PHYSICS_DT) (laneGroups s1.cars) oracle0
      (s1.cars.get ⟨0, hk⟩) < MIN_GAP := by
    have he : s1.cars.get ⟨0, hk⟩ = car1 := rfl
    rw [he, gap_s1]; norm_num [MIN_GAP]
  have hk' : 0 < (updatePhysics net1 oracle0 oracle0 PHYSICS_DT s1).cars.length := by
    rw [updatePhysics_length]; exact hk
  obtain ⟨hv, ha⟩ := clamp_zeroes_speed net1 oracle0 oracle0 PHYSICS_DT s1 0 hk hgap hk'
  have hgd : (updatePhysics net1 oracle0 oracle0 PHYSICS_DT s1).cars.getD 0 car1 =
      (updatePhysics net1 oracle0 oracle0 PHYSICS_DT s1).cars.get ⟨0, hk'⟩ := by
    rw [List.getD_eq_getElem?_getD, List.getElem?_eq_getElem hk']
    simp
  rw [hgd]
  exact ⟨hv, ha⟩

/-! ## The position-range invariant (C6) -/

lemma p1step_fields (net : Net) (lights : ℕ → ℝ) (groups : ℕ → List Car)
    (vL : ℕ → ℝ) (ρ : ℕ → ℕ) (c : Car) :
    (p1step net lights groups vL ρ c).t = c.t ∧
    (p1step net lights groups vL ρ c).laneId = c.laneId ∧
    (p1step net lights groups vL ρ c).id = c.id := by
  simp only [p1step]
  split <;> exact ⟨rfl, rfl, rfl⟩

lemma p1step_v_cases (net : Net) (lights : ℕ → ℝ) (groups : ℕ → List Car)
    (vL : ℕ → ℝ) (ρ : ℕ → ℕ) (c : Car) :
    (p1step net lights groups vL ρ c).v = c.v ∨ (p1step net lights groups vL ρ c).v = 0 := by
  simp only [p1step]
  split
  · exact Or.inr rfl
  · exact Or.inl rfl

lemma idmAcc_le (v gap ss : ℝ) : idmAcc v gap ss ≤ IDM_A := by
  unfold idmAcc IDM_A
  nlinarith [sq_nonneg ((v / IDM_V0) ^ 2), sq_nonneg (ss / max 0.1 gap),
    show (v / IDM_V0) ^ 4 = ((v / IDM_V0) ^ 2) ^ 2 from by ring]

lemma idmAcc_neg_of_fast (v gap ss : ℝ) (hv : IDM_V0 < v) : idmAcc v gap ss < 0 := by
  unfold idmAcc
  have hV : (0:ℝ) < IDM_V0 := by norm_num [IDM_V0]
  have h1 : (1:ℝ) < v / IDM_V0 := (one_lt_div hV).mpr hv
  have h4 : (1:ℝ) < (v / IDM_V0) ^ 4 := one_lt_pow₀ h1 (by norm_num)
  nlinarith [sq_nonneg (ss / max 0.1 gap), IDM_A, show (0:ℝ) < IDM_A from by norm_num [IDM_A]]

lemma p1step_a_bound (net : Net) (lights : ℕ → ℝ) (groups : ℕ → List Car)
    (vL : ℕ → ℝ) (ρ : ℕ → ℕ) (c : Car) :
    (p1step net lights groups vL ρ c).a ≤ IDM_A ∧
    (IDM_V0 < (p1step net lights groups vL ρ c).v →
      (p1step net lights groups vL ρ c).a < 0) := by
  simp only [p1step]
  split
  · refine ⟨by norm_num [IDM_B, IDM_A], ?_⟩
    intro h
    norm_num [IDM_V0] at h
  · exact ⟨idmAcc_le _ _ _, fun h => idmAcc_neg_of_fast _ _ _ h⟩

lemma p2step_keeps_range (net : Net) (σ : ℕ → ℕ) (c : Car)
    (hlen : ∀ i, 1 ≤ (net.lanes i).len)
    (ht0 : 0 ≤ c.t) (ht1 : c.t < (net.lanes c.laneId).len)
    (_hv0 : 0 ≤ c.v) (hv1 : c.v ≤ IDM_V0 + IDM_A * PHYSICS_DT)
    (ha : c.a ≤ IDM_A) (hav : IDM_V0 < c.v → c.a < 0) :
    (0 ≤ (p2step net σ PHYSICS_DT c).t ∧
      (p2step net σ PHYSICS_DT c).t <
        (net.lanes (p2step net σ PHYSICS_DT c).laneId).len) ∧
    0 ≤ (p2step net σ PHYSICS_DT c).v ∧
    (p2step net σ PHYSICS_DT c).v ≤ IDM_V0 + IDM_A * PHYSICS_DT := by
  simp only [p2step]
  set a1 := if c.v = 0 ∧ c.a < 0 then (0:ℝ) else c.a with ha1
  have ha1le : a1 ≤ IDM_A := by
    rw [ha1]; split
    · norm_num [IDM_A]
    · exact ha
  set v1 := max 0 (c.v + a1 * PHYSICS_DT) with hv1def
  have hv10 : 0 ≤ v1 := le_max_left _ _
  have hv1max : v1 ≤ IDM_V0 + IDM_A * PHYSICS_DT := by
    rcases le_or_lt c.v IDM_V0 with hc | hc
    · have : c.v + a1 * PHYSICS_DT ≤ IDM_V0 + IDM_A * PHYSICS_DT := by
        have : a1 * PHYSICS_DT ≤ IDM_A * PHYSICS_DT :=
          mul_le_mul_of_nonneg_right ha1le (by norm_num [PHYSICS_DT])
        linarith
      rw [hv1def]
      exact max_le (by norm_num [IDM_V0, IDM_A, PHYSICS_DT]) this
    · have hcv0 : c.v ≠ 0 := by
        intro h; rw [h] at hc; norm_num [IDM_V0] at hc
      have ha1eq : a1 = c.a := by
        rw [ha1, if_neg]; intro h; exact hcv0 h.1
      have hane : c.a < 0 := hav hc
      have : c.v + a1 * PHYSICS_DT ≤ c.v := by
        rw [ha1eq]
        nlinarith [show (0:ℝ) < PHYSICS_DT from by norm_num [PHYSICS_DT]]
      rw [hv1def]
      exact max_le (by norm_num [IDM_V0, IDM_A, PHYSICS_DT]) (by linarith)
  have hdtpos : (0:ℝ) < PHYSICS_DT := by norm_num [PHYSICS_DT]
  have hstep : v1 * PHYSICS_DT < 1 := by
    have : v1 * PHYSICS_DT ≤ (IDM_V0 + IDM_A * PHYSICS_DT) * PHYSICS_DT :=
      mul_le_mul_of_nonneg_right hv1max (le_of_lt hdtpos)
    calc v1 * PHYSICS_DT ≤ (IDM_V0 + IDM_A * PHYSICS_DT) * PHYSICS_DT := this
      _ < 1 := by norm_num [IDM_V0, IDM_A, PHYSICS_DT]
  split
  · next hge =>
    split
    · next tgt heq =>
      refine ⟨⟨?_, ?_⟩, hv10, hv1max⟩
      · simp only []
        linarith [hge]
      · simp only []
        have h1 : c.t + v1 * PHYSICS_DT - (net.lanes c.laneId).len < v1 * PHYSICS_DT := by
          linarith
        have h2 := hlen tgt
        linarith
    · next heq =>
      refine ⟨⟨?_, ?_⟩, hv10, hv1max⟩
      · simp only []
        norm_num
      · simp only []
        have := hlen ((roadIds net).getD (σ c.id % (roadIds net).length) 0)
        linarith
  · next hlt =>
    push_neg at hlt
    refine ⟨⟨?_, ?_⟩, hv10, hv1max⟩
    · simp only []
      nlinarith
    · simp only []
      exact hlt

lemma runPass1_mem (net : Net) (lights : ℕ → ℝ) (groups : ℕ → List Car)
    (ρ : ℕ → ℕ) :
    ∀ (pending done : List Car) (c' : Car),
      c' ∈ runPass1 net lights groups ρ done pending →
      ∃ c ∈ pending, ∃ vL, c' = p1step net lights groups vL ρ c := by
  intro pending
  induction pending with
  | nil => intro done c' h; simp [runPass1] at h
  | cons c rest ih =>
    intro done c' h
    simp only [runPass1, List.mem_cons] at h
    rcases h with h | h
    · exact ⟨c, List.mem_cons_self c rest, _, h⟩
    · obtain ⟨d, hd, vL, hvl⟩ := ih _ c' h
      exact ⟨d, List.mem_cons_of_mem c hd, vL, hvl⟩

/-- C6: position-range invariant — from any state in which every car sits
inside its lane (`0 ≤ t < len`) with a plausible speed
(`0 ≤ v ≤ IDM_V0 + IDM_A·dt`, as established at initialisation) and every
lane is at least 1 unit long (the shortest lanes of the built network are
far longer), one `updatePhysics` tick leaves every car with `0 ≤ t < len`
of its (possibly new) lane — the wrap on lane transition never leaves `t`
out of range — and re-establishes the speed bound, so the invariant holds
inductively at the end of every tick. -/
theorem position_in_range (net : Net) (ρ σ : ℕ → ℕ) (s : SimState)
    (hlen : ∀ i, 1 ≤ (net.lanes i).len)
    (hcars : ∀ c ∈ s.cars, 0 ≤ c.t ∧ c.t < (net.lanes c.laneId).len ∧
      0 ≤ c.v ∧ c.v ≤ IDM_V0 + IDM_A * PHYSICS_DT) :
    ∀ c' ∈ (updatePhysics net ρ σ PHYSICS_DT s).cars,
      (0 ≤ c'.t ∧ c'.t < (net.lanes c'.laneId).len) ∧
      0 ≤ c'.v ∧ c'.v ≤ IDM_V0 + IDM_A * PHYSICS_DT := by
  intro c' hc'
  simp only [updatePhysics, List.mem_map] at hc'
  obtain ⟨c1, hc1, rfl⟩ := hc'
  obtain ⟨c, hc, vL, rfl⟩ := runPass1_mem net _ _ ρ s.cars [] c1 hc1
  obtain ⟨hct0, hct1, hcv0, hcv1⟩ := hcars c hc
  obtain ⟨hft, hfl, _⟩ := p1step_fields net _ _ vL ρ c
  obtain ⟨hab, hav⟩ := p1step_a_bound net _ _ vL ρ c
  apply p2step_keeps_range net σ _ hlen
  · rw [hft]; exact hct0
  · rw [hft, hfl]; exact hct1
  · rcases p1step_v_cases net _ _ vL ρ c with h | h <;> rw [h]
    exact hcv0
  · rcases p1step_v_cases net _ _ vL ρ c with h | h <;> rw [h]
    · exact hcv1
    · norm_num [IDM_V0, IDM_A, PHYSICS_DT]
  · exact hab
  · exact hav

/-- Witness for `position_in_range`: the invariant instantiated on the
concrete one-car state `s1`. -/
theorem position_in_range_witness :
    0 ≤ ((updatePhysics net1 oracle0 oracle0 PHYSICS_DT s1).cars.getD 0 car1).t ∧
    ((updatePhysics net1 oracle0 oracle0 PHYSICS_DT s1).cars.getD 0 car1).t <
      (net1.lanes ((updatePhysics net1 oracle0 oracle0 PHYSICS_DT s1).cars.getD 0 car1).laneId).len := by
  have hlen : ∀ i, 1 ≤ (net1.lanes i).len := by
    intro i; norm_num [net1, lane1]
  have hcars : ∀ c ∈ s1.cars, 0 ≤ c.t ∧ c.t < (net1.lanes c.laneId).len ∧
      0 ≤ c.v ∧ c.v ≤ IDM_V0 + IDM_A * PHYSICS_DT := by
    intro c hc
    simp only [s1, List.mem_singleton] at hc
    subst hc
    norm_num [car1, net1, lane1, IDM_V0, IDM_A, PHYSICS_DT]
  have hk' : 0 < (updatePhysics net1 oracle0 oracle0 PHYSICS_DT s1).cars.length := by
    rw [updatePhysics_length]; norm_num [s1]
  have hmem : (updatePhysics net1 oracle0 oracle0 PHYSICS_DT s1).cars.getD 0 car1 ∈
      (updatePhysics net1 oracle0 oracle0 PHYSICS_DT s1).cars := by
    rw [List.getD_eq_getElem?_getD, List.getElem?_eq_getElem hk']
    simp only [Option.getD_some]
    exact List.getElem_mem hk'
  exact (position_in_range net1 oracle0 oracle0 s1 hlen hcars _ hmem).1

/-! ## Order-(in)dependence of the tick (C3) -/

/-- Lookup of a car by id (order-independent states are compared per car). -/
def findCar (i : ℕ) (l : List Car) : Option Car :=
  l.find? (fun c => c.id = i)

lemma insertByT_perm (c : Car) (l : List Car) : (insertByT c l).Perm (c :: l) := by
  induction l with
  | nil => rfl
  | cons d ds ih =>
    simp only [insertByT]
    split
    · exact ((ih.cons d).trans (List.Perm.swap c d ds)).symm.symm
    · exact List.Perm.refl _

lemma sortByT_perm (l : List Car) : (sortByT l).Perm l := by
  induction l with
  | nil => rfl
  | cons c cs ih => exact (insertByT_perm c (sortByT cs)).trans (ih.cons c)

lemma insertByT_pairwise (c : Car) (l : List Car)
    (h : l.Pairwise (fun a b => b.t ≤ a.t)) :
    (insertByT c l).Pairwise (fun a b => b.t ≤ a.t) := by
  induction l with
  | nil => simp [insertByT]
  | cons d ds ih =>
    simp only [insertByT]
    split
    · next hlt =>
      refine List.Pairwise.cons ?_ (ih h.of_cons)
      intro b hb
      have hb' := (insertByT_perm c ds).mem_iff.mp hb
      rcases List.mem_cons.mp hb' with rfl | hb''
      · exact le_of_lt hlt
      · exact List.rel_of_pairwise_cons h hb''
    · next hge =>
      push_neg at hge
      refine List.Pairwise.cons ?_ h
      intro b hb
      rcases List.mem_cons.mp hb with rfl | hb'
      · exact hge
      · exact le_trans (List.rel_of_pairwise_cons h hb') hge

lemma sortByT_pairwise (l : List Car) :
    (sortByT l).Pairwise (fun a b => b.t ≤ a.t) := by
  induction l with
  | nil => simp [sortByT]
  | cons c cs ih => exact insertByT_pairwise c (sortByT cs) ih

lemma perm_strictSorted_eq : ∀ {xs ys : List Car}, xs.Perm ys →
    xs.Pairwise (fun a b => b.t < a.t) → ys.Pairwise (fun a b => b.t < a.t) →
    xs = ys := by
  intro xs
  induction xs with
  | nil =>
    intro ys h _ _
    exact (List.Perm.nil_eq h).symm.symm
  | cons x xs ih =>
    intro ys hp hxs hys
    cases ys with
    | nil => exact hp.eq_nil
    | cons y ys' =>
      have hxy : x = y := by
        have hx : x ∈ y :: ys' := hp.mem_iff.mp (List.mem_cons_self x xs)
        rcases List.mem_cons.mp hx with rfl | hx'
        · rfl
        · have hy : y ∈ x :: xs := hp.symm.mem_iff.mp (List.mem_cons_self y ys')
          rcases List.mem_cons.mp hy with rfl | hy'
          · rfl
          · have h1 : x.t < y.t := List.rel_of_pairwise_cons hys hx'
            have h2 : y.t < x.t := List.rel_of_pairwise_cons hxs hy'
            exact absurd (lt_trans h1 h2) (lt_irrefl _)
      subst hxy
      have hp' : xs.Perm ys' := hp.cons_inv
      exact congrArg (x :: ·) (ih hp' hxs.of_cons hys.of_cons)

lemma unique_of_pairwise_ne : ∀ {l : List Car} {c d : Car},
    l.Pairwise (fun a b => a.id ≠ b.id) → c ∈ l → d ∈ l → c.id = d.id → c = d := by
  intro l
  induction l with
  | nil => intro c d _ hc; exact absurd hc (List.not_mem_nil c)
  | cons e l ih =>
    intro c d hpw hc hd hid
    rcases List.mem_cons.mp hc with rfl | hc' <;> rcases List.mem_cons.mp hd with rfl | hd'
    · rfl
    · exact absurd hid (List.rel_of_pairwise_cons hpw hd')
    · exact absurd hid.symm (List.rel_of_pairwise_cons hpw hc')
    · exact ih hpw.of_cons hc' hd' hid

lemma findCar_perm {l1 l2 : List Car} (h : l1.Perm l2)
    (hids : l1.Pairwise (fun a b => a.id ≠ b.id)) (i : ℕ) :
    findCar i l1 = findCar i l2 := by
  unfold findCar
  cases h1 : l1.find? (fun c => c.id = i) with
  | none =>
    cases h2 : l2.find? (fun c => c.id = i) with
    | none => rfl
    | some d =>
      have hd : d ∈ l2 := List.mem_of_find?_eq_some h2
      have hdi := List.find?_some h2
      have := List.find?_eq_none.mp h1 d (h.symm.mem_iff.mp hd)
      simp_all
  | some c =>
    have hc : c ∈ l1 := List.mem_of_find?_eq_some h1
    have hci := List.find?_some h1
    cases h2 : l2.find? (fun c => c.id = i) with
    | none =>
      have := List.find?_eq_none.mp h2 c (h.mem_iff.mp hc)
      simp_all
    | some d =>
      have hd : d ∈ l1 := h.symm.mem_iff.mp (List.mem_of_find?_eq_some h2)
      have hdi := List.find?_some h2
      have hcd : c = d := by
        apply unique_of_pairwise_ne hids hc hd
        simp_all
      rw [hcd]

/-- Two permuted car lists with pairwise-distinct ids and, within each lane,
pairwise-distinct positions produce identical per-lane groups: the stable
sort cannot be influenced by the iteration order when there are no ties. -/
lemma laneGroups_perm_eq {l1 l2 : List Car} (h : l1.Perm l2)
    (hids : l1.Pairwise (fun a b => a.id ≠ b.id))
    (hdist : ∀ c ∈ l1, ∀ d ∈ l1, c.id ≠ d.id → c.laneId = d.laneId → c.t ≠ d.t) :
    laneGroups l1 = laneGroups l2 := by
  funext lid
  unfold laneGroups
  have hperm : (l1.filter (fun c => c.laneId = lid)).Perm
      (l2.filter (fun c => c.laneId = lid)) := h.filter _
  have hsperm : (sortByT (l1.filter (fun c => c.laneId = lid))).Perm
      (sortByT (l2.filter (fun c => c.laneId = lid))) :=
    ((sortByT_perm _).trans hperm).trans (sortByT_perm _).symm
  apply perm_strictSorted_eq hsperm
  · have hne : (sortByT (l1.filter (fun c => c.laneId = lid))).Pairwise
        (fun a b => a.t ≠ b.t) := by
      have h1 : (l1.filter (fun c => c.laneId = lid)).Pairwise
          (fun a b => a.id ≠ b.id) := hids.filter _
      have h2 : (l1.filter (fun c => c.laneId = lid)).Pairwise
          (fun a b => a.t ≠ b.t) := by
        refine h1.imp_of_mem ?_
        intro a b ha hb hab
        have ha' := List.mem_filter.mp ha
        have hb' := List.mem_filter.mp hb
        refine hdist a ha'.1 b hb'.1 hab ?_
        have h3 : a.laneId = lid := by simpa using ha'.2
        have h4 : b.laneId = lid := by simpa using hb'.2
        rw [h3, h4]
      exact ((List.Perm.pairwise_iff (fun hab => Ne.symm hab) (sortByT_perm _).symm).mp h2)
    have hle := sortByT_pairwise (l1.filter (fun c => c.laneId = lid))
    exact (hle.and hne).imp (fun h => lt_of_le_of_ne h.1 (fun he => h.2 he.symm))
  · have hne : (sortByT (l2.filter (fun c => c.laneId = lid))).Pairwise
        (fun a b => a.t ≠ b.t) := by
      have hids2 : l2.Pairwise (fun a b => a.id ≠ b.id) :=
        (List.Perm.pairwise_iff (fun hab => Ne.symm hab) h).mp hids
      have h1 : (l2.filter (fun c => c.laneId = lid)).Pairwise
          (fun a b => a.id ≠ b.id) := hids2.filter _
      have h2 : (l2.filter (fun c => c.laneId = lid)).Pairwise
          (fun a b => a.t ≠ b.t) := by
        refine h1.imp_of_mem ?_
        intro a b ha hb hab
        have ha' := List.mem_filter.mp ha
        have hb' := List.mem_filter.mp hb
        refine hdist a (h.symm.mem_iff.mp ha'.1) b (h.symm.mem_iff.mp hb'.1) hab ?_
        have h3 : a.laneId = lid := by simpa using ha'.2
        have h4 : b.laneId = lid := by simpa using hb'.2
        rw [h3, h4]
      exact ((List.Perm.pairwise_iff (fun hab => Ne.symm hab) (sortByT_perm _).symm).mp h2)
    have hle := sortByT_pairwise (l2.filter (fun c => c.laneId = lid))
    exact (hle.and hne).imp (fun h => lt_of_le_of_ne h.1 (fun he => h.2 he.symm))

lemma vOf_congr {l l' : List Car}
    (h : l.map (fun c => (c.id, c.v)) = l'.map (fun c => (c.id, c.v))) :
    vOf l = vOf l' := by
  funext i
  induction l generalizing l' with
  | nil =>
    cases l' with
    | nil => rfl
    | cons d ds => simp at h
  | cons c cs ih =>
    cases l' with
    | nil => simp at h
    | cons d ds =>
      simp only [List.map_cons, List.cons.injEq, Prod.mk.injEq] at h
      obtain ⟨⟨hid, hv⟩, htl⟩ := h
      simp only [vOf, List.find?]
      rw [hid]
      cases hb : (decide (d.id = i)) with
      | true => simp [hv]
      | false => simpa [vOf] using ih htl

lemma p1step_v_noclamp (net : Net) (lights : ℕ → ℝ) (groups : ℕ → List Car)
    (vL : ℕ → ℝ) (ρ : ℕ → ℕ) (c : Car)
    (h : MIN_GAP ≤ gapOf net lights groups ρ c) :
    (p1step net lights groups vL ρ c).v = c.v := by
  simp only [p1step]
  rw [perceive_gap_eq_gapOf net lights groups ρ c vL]
  rw [if_neg (not_lt.mpr h)]

/-- When no car's perceived gap triggers the emergency clamp, pass 1 never
writes a speed, so the sequential in-place pass collapses to a map of a
per-car function of the initial snapshot. -/
lemma runPass1_noclamp (net : Net) (lights : ℕ → ℝ) (groups : ℕ → List Car)
    (ρ : ℕ → ℕ) :
    ∀ (pending done : List Car),
      (∀ c ∈ pending, MIN_GAP ≤ gapOf net lights groups ρ c) →
      runPass1 net lights groups ρ done pending =
        pending.map (p1step net lights groups (vOf (done ++ pending)) ρ) := by
  intro pending
  induction pending with
  | nil => intro done _; rfl
  | cons c rest ih =>
    intro done hnc
    have hc := hnc c (List.mem_cons_self c rest)
    have hrest : ∀ d ∈ rest, MIN_GAP ≤ gapOf net lights groups ρ d :=
      fun d hd => hnc d (List.mem_cons_of_mem c hd)
    simp only [runPass1, List.map_cons]
    set vL := vOf (done ++ c :: rest) with hvL
    set c' := p1step net lights groups vL ρ c with hc'
    have hvmap : ((done ++ [c']) ++ rest).map (fun x => (x.id, x.v)) =
        (done ++ c :: rest).map (fun x => (x.id, x.v)) := by
      have hid : c'.id = c.id := (p1step_fields net lights groups vL ρ c).2.2
      have hv : c'.v = c.v := p1step_v_noclamp net lights groups vL ρ c hc
      simp [hid, hv]
    have hvOf : vOf ((done ++ [c']) ++ rest) = vL := by
      rw [hvL]; exact vOf_congr hvmap
    rw [ih (done ++ [c']) hrest, hvOf]

lemma p2step_id (net : Net) (σ : ℕ → ℕ) (dt : ℝ) (c : Car) :
    (p2step net σ dt c).id = c.id := by
  simp only [p2step]
  repeat' split
  all_goals rfl

lemma findCar_map_id_pres (F : Car → Car) (hF : ∀ c, (F c).id = c.id) :
    ∀ (l : List Car) (i : ℕ), findCar i (l.map F) = (findCar i l).map F := by
  intro l i
  induction l with
  | nil => rfl
  | cons c cs ih =>
    simp only [findCar, List.map_cons, List.find?, hF c]
    cases hb : (decide (c.id = i)) with
    | true => rfl
    | false => simpa [findCar] using ih

/-- C3 amended: the tick is order-independent with respect to vehicle
iteration order — for any permutation of the car list, from the same state
and with the same per-car random choices, one tick yields the same final
state for every car id — *provided* (a) car ids are pairwise distinct,
(b) no two cars of one lane share the exact same position `t` (the stable
sort breaks such ties by iteration order), and (c) no car's perceived gap
is below `MIN_GAP` (the emergency clamp writes `v = 0` during pass 1, and
later-processed followers read that speed through `Δv`). -/
theorem tick_order_independent (net : Net) (ρ σ : ℕ → ℕ) (dt : ℝ)
    (l1 l2 : List Car) (L : ℕ → ℝ)
    (hperm : l1.Perm l2)
    (hids : l1.Pairwise (fun a b => a.id ≠ b.id))
    (hdist : ∀ c ∈ l1, ∀ d ∈ l1, c.id ≠ d.id → c.laneId = d.laneId → c.t ≠ d.t)
    (hnoclamp : ∀ c ∈ l1, MIN_GAP ≤ gapOf net (fun n => L n + dt) (laneGroups l1) ρ c) :
    ∀ i, findCar i (updatePhysics net ρ σ dt ⟨l1, L⟩).cars =
      findCar i (updatePhysics net ρ σ dt ⟨l2, L⟩).cars := by
  intro i
  have hgroups : laneGroups l1 = laneGroups l2 := laneGroups_perm_eq hperm hids hdist
  have hnoclamp2 : ∀ c ∈ l2, MIN_GAP ≤ gapOf net (fun n => L n + dt) (laneGroups l2) ρ c := by
    intro c hc
    rw [← hgroups]
    exact hnoclamp c (hperm.symm.mem_iff.mp hc)
  have hvOf : vOf l1 = vOf l2 := by
    funext j
    have h1 : findCar j l1 = findCar j l2 := findCar_perm hperm hids j
    unfold vOf
    unfold findCar at h1
    rw [h1]
  have h1 : (updatePhysics net ρ σ dt ⟨l1, L⟩).cars =
      l1.map (fun c => p2step net σ dt
        (p1step net (fun n => L n + dt) (laneGroups l1) (vOf l1) ρ c)) := by
    simp only [updatePhysics]
    rw [runPass1_noclamp net _ _ ρ l1 [] hnoclamp]
    simp [List.map_map, Function.comp]
  have h2 : (updatePhysics net ρ σ dt ⟨l2, L⟩).cars =
      l2.map (fun c => p2step net σ dt
        (p1step net (fun n => L n + dt) (laneGroups l1) (vOf l1) ρ c)) := by
    simp only [updatePhysics]
    rw [runPass1_noclamp net _ _ ρ l2 [] hnoclamp2]
    rw [← hgroups, List.nil_append, ← hvOf]
    simp [List.map_map, Function.comp]
  rw [h1, h2]
  have hFid : ∀ c, (p2step net σ dt
      (p1step net (fun n => L n + dt) (laneGroups l1) (vOf l1) ρ c)).id = c.id := by
    intro c
    rw [p2step_id]
    exact (p1step_fields net _ _ (vOf l1) ρ c).2.2
  rw [findCar_map_id_pres _ hFid l1 i, findCar_map_id_pres _ hFid l2 i,
    findCar_perm hperm hids i]

/-! ### A concrete order-dependent tick

Two cars at the same position `t = 50` of one junction lane (whose single
successor road lane is empty).  The stable sort leaves them in iteration
order, so whichever is listed first becomes the lane leader; the other
perceives `gap = -CAR_LENGTH < MIN_GAP` and is hard-stopped.  Swapping the
list therefore swaps which car ends the tick at `v = 0`. -/

def laneJ : Lane := ⟨LaneTy.junction, 100, [1], none, none⟩

def laneR2 : Lane := ⟨LaneTy.road, 136, [], some 0, some RoadDir.EW⟩

def net3 : Net := ⟨fun i => if i = 0 then laneJ else laneR2, [0, 1]⟩

def carA : Car := ⟨0, 0, 50, 7, 0, none⟩

def carB : Car := ⟨1, 0, 50, 7, 0, none⟩

def s3a : SimState := ⟨[carA, carB], fun _ => 0⟩

def s3b : SimState := ⟨[carB, carA], fun _ => 0⟩

lemma sStar70 : idmSStar 7 0 = 14.2 := by
  unfold idmSStar IDM_S0 IDM_T
  rw [mul_zero, zero_div, add_zero]
  rw [show max (0:ℝ) (7 * 1.6) = 7 * 1.6 from max_eq_right (by norm_num)]
  norm_num

lemma acc70 : idmAcc 7 500 (idmSStar 7 0) = 1.40504016 := by
  rw [sStar70]
  unfold idmAcc IDM_A IDM_V0
  rw [show max (0.1:ℝ) 500 = 500 from max_eq_right (by norm_num)]
  norm_num

lemma tick3a_v :
    (findCar 0 (updatePhysics net3 oracle0 oracle0 PHYSICS_DT s3a).cars).map Car.v =
      some (7 + 1.40504016 * PHYSICS_DT) := by
  norm_num [updatePhysics, s3a, laneGroups, runPass1, findCar, p1step, perceive,
    p2step, carA, carB, net3, laneJ, laneR2, oracle0, vOf, sortByT, insertByT,
    leaderGap, leaderDv, CAR_LENGTH, MIN_GAP, PHYSICS_DT, IDM_B, List.filter,
    List.findIdx, List.findIdx.go, List.find?, List.getLast?, acc70]

lemma tick3b_v :
    (findCar 0 (updatePhysics net3 oracle0 oracle0 PHYSICS_DT s3b).cars).map Car.v =
      some 0 := by
  norm_num [updatePhysics, s3b, laneGroups, runPass1, findCar, p1step, perceive,
    p2step, carA, carB, net3, laneJ, laneR2, oracle0, vOf, sortByT, insertByT,
    leaderGap, leaderDv, CAR_LENGTH, MIN_GAP, PHYSICS_DT, IDM_B, List.filter,
    List.findIdx, List.findIdx.go, List.find?, List.getLast?, acc70]

/-- C3 counterexample: the per-tick update is *not* order-independent —
permuting the two-car list above changes car 0's end-of-tick speed from
`7 + acc·dt` to `0`. -/
theorem tick_order_dependent_cex :
    s3a.cars.Perm s3b.cars ∧
    (findCar 0 (updatePhysics net3 oracle0 oracle0 PHYSICS_DT s3a).cars).map Car.v ≠
      (findCar 0 (updatePhysics net3 oracle0 oracle0 PHYSICS_DT s3b).cars).map Car.v := by
  constructor
  · exact List.Perm.swap carB carA []
  · rw [tick3a_v, tick3b_v]
    intro h
    rw [Option.some_inj] at h
    norm_num [PHYSICS_DT] at h

def carC : Car := ⟨0, 0, 50, 7, 0, none⟩

def carD : Car := ⟨1, 0, 20, 7, 0, none⟩

lemma gap_carC : gapOf net3 (fun _ => (0:ℝ) + PHYSICS_DT)
    (laneGroups [carC, carD]) oracle0 carC = 500 := by
  norm_num [gapOf, perceive, laneGroups, net3, laneJ, laneR2, oracle0, carC, carD,
    sortByT, insertByT, leaderGap, leaderDv, CAR_LENGTH, List.filter, List.findIdx,
    List.findIdx.go, List.getLast?]

lemma gap_carD : gapOf net3 (fun _ => (0:ℝ) + PHYSICS_DT)
    (laneGroups [carC, carD]) oracle0 carD = 25.4 := by
  norm_num [gapOf, perceive, laneGroups, net3, laneJ, laneR2, oracle0, carC, carD,
    sortByT, insertByT, leaderGap, leaderDv, CAR_LENGTH, List.filter, List.findIdx,
    List.findIdx.go, List.getLast?]

/-- Witness for `tick_order_independent`: two cars on one lane at distinct
positions, neither near its obstacle, listed in the two possible orders. -/
theorem tick_order_independent_witness :
    findCar 0 (updatePhysics net3 oracle0 oracle0 PHYSICS_DT
        ⟨[carC, carD], fun _ => 0⟩).cars =
      findCar 0 (updatePhysics net3 oracle0 oracle0 PHYSICS_DT
        ⟨[carD, carC], fun _ => 0⟩).cars := by
  apply tick_order_independent net3 oracle0 oracle0 PHYSICS_DT _ _ (fun _ => 0)
    (List.Perm.swap carD carC [])
  · simp [carC, carD]
  · intro c hc d hd hne hlane
    simp only [List.mem_cons, List.not_mem_nil, or_false] at hc hd
    rcases hc with rfl | rfl <;> rcases hd with rfl | rfl <;>
      simp_all [carC, carD]
  · intro c hc
    simp only [List.mem_cons, List.not_mem_nil, or_false] at hc
    rcases hc with rfl | rfl
    · rw [show (fun n : ℕ => (fun _ : ℕ => (0:ℝ)) n + PHYSICS_DT) =
          (fun _ : ℕ => (0:ℝ) + PHYSICS_DT) from rfl, gap_carC]
      norm_num [MIN_GAP]
    · rw [show (fun n : ℕ => (fun _ : ℕ => (0:ℝ)) n + PHYSICS_DT) =
          (fun _ : ℕ => (0:ℝ) + PHYSICS_DT) from rfl, gap_carD]
      norm_num [MIN_GAP]

/-! ## Car initialisation (`initCars`, source lines 273-289)

Each of the `CAR_COUNT` cars picks a uniformly random ROAD lane
(`startLanes[⌊rand·n⌋]`, embedded through the per-car oracle `laneC`) and a
position `rand · len · 0.9` (`posC i` is that car's raw `Math.random()`
draw, a value in `[0, 1)`); speed starts at half the desired speed,
acceleration at 0, and no target lane is committed. -/

def initCars (net : Net) (laneC : ℕ → ℕ) (posC : ℕ → ℝ) : List Car :=
  let startLanes := net.laneIds.filter (fun l => (net.lanes l).typ = LaneTy.road)
  (List.range CAR_COUNT).map (fun i =>
    let lid := startLanes.getD (laneC i % startLanes.length) 0
    { id := i, laneId := lid, t := posC i * (net.lanes lid).len * 0.9,
      v := IDM_V0 * 0.5, a := 0, targetLaneId := none })

/-- C10: the initial population has exactly `CAR_COUNT` cars; every car
starts on a ROAD lane at `t ∈ [0, 0.9·len)` (hence inside `[0, len)`), with
`v = IDM_V0/2 > 0`, `a = 0` and no committed target lane — the initial
state already satisfies the position-range and nonnegative-speed
invariants before the first tick. -/
theorem initCars_valid (net : Net) (laneC : ℕ → ℕ) (posC : ℕ → ℝ)
    (hpos : ∀ i, 0 ≤ posC i ∧ posC i < 1)
    (hlen : ∀ l, 0 < (net.lanes l).len)
    (hne : net.laneIds.filter (fun l => (net.lanes l).typ = LaneTy.road) ≠ []) :
    (initCars net laneC posC).length = CAR_COUNT ∧
    ∀ c ∈ initCars net laneC posC,
      (net.lanes c.laneId).typ = LaneTy.road ∧
      0 ≤ c.t ∧ c.t < 0.9 * (net.lanes c.laneId).len ∧
      c.t < (net.lanes c.laneId).len ∧
      c.v = IDM_V0 * 0.5 ∧ 0 < c.v ∧ c.a = 0 ∧ c.targetLaneId = none := by
  constructor
  · simp [initCars]
  · intro c hc
    simp only [initCars, List.mem_map, List.mem_range] at hc
    obtain ⟨i, _, rfl⟩ := hc
    set startLanes := net.laneIds.filter (fun l => (net.lanes l).typ = LaneTy.road)
      with hsl
    have hlenpos : 0 < startLanes.length := List.length_pos.mpr hne
    have hidx : laneC i % startLanes.length < startLanes.length :=
      Nat.mod_lt _ hlenpos
    set lid := startLanes.getD (laneC i % startLanes.length) 0 with hlid
    have hmem : lid ∈ startLanes := by
      rw [hlid, List.getD_eq_getElem?_getD, List.getElem?_eq_getElem hidx]
      exact List.getElem_mem hidx
    have hroad : (net.lanes lid).typ = LaneTy.road := by
      have := List.mem_filter.mp hmem
      simpa using this.2
    obtain ⟨hp0, hp1⟩ := hpos i
    have hL := hlen lid
    refine ⟨hroad, ?_, ?_, ?_, rfl, ?_, rfl, rfl⟩
    · positivity
    · nlinarith
    · nlinarith
    · norm_num [IDM_V0]

/-- Witness for `initCars_valid`: the initialisation run on the one-lane
network `net1` with the midpoint random draw. -/
theorem initCars_valid_witness :
    ((initCars net1 oracle0 (fun _ => 1/2)).getD 0 car1).v = IDM_V0 * 0.5 ∧
    0 ≤ ((initCars net1 oracle0 (fun _ => 1/2)).getD 0 car1).t ∧
    ((initCars net1 oracle0 (fun _ => 1/2)).getD 0 car1).t <
      (net1.lanes ((initCars net1 oracle0 (fun _ => 1/2)).getD 0 car1).laneId).len := by
  have h := initCars_valid net1 oracle0 (fun _ => 1/2)
    (fun i => by norm_num) (fun l => by norm_num [net1, lane1])
    (by norm_num [net1, lane1])
  obtain ⟨hlen, hall⟩ := h
  have hk : 0 < (initCars net1 oracle0 (fun _ => 1/2)).length := by
    rw [hlen]; norm_num [CAR_COUNT]
  have hmem : (initCars net1 oracle0 (fun _ => 1/2)).getD 0 car1 ∈
      initCars net1 oracle0 (fun _ => 1/2) := by
    rw [List.getD_eq_getElem?_getD, List.getElem?_eq_getElem hk]
    exact List.getElem_mem hk
  obtain ⟨_, ht0, _, ht1, hv, _, _, _⟩ := hall _ hmem
  exact ⟨hv, ht0, ht1⟩

/-! ## Signal-timer initialisation (source lines 152-158) -/

/-- The timer assigned to a fresh intersection signal at network build
time: `timer: Math.random() * 10`, where `r` is the raw uniform draw in
`[0, 1)` (source line 155). -/
def initLightTimer (r : ℝ) : ℝ := r * 10

/-- C4 counterexample: the value 20 lies inside `[0, CYCLE) = [0, 32)` but
is not attainable by the timer initialisation — the random offset does not
span the full cycle. -/
theorem timer_init_cex :
    0 ≤ (20:ℝ) ∧ (20:ℝ) < CYCLE ∧
    ¬ ∃ r : ℝ, 0 ≤ r ∧ r < 1 ∧ initLightTimer r = 20 := by
  refine ⟨by norm_num, by norm_num [CYCLE, T_GREEN, T_YELLOW, T_RED_CLEAR], ?_⟩
  rintro ⟨r, h0, h1, he⟩
  unfold initLightTimer at he
  nlinarith

/-- C4 amended: the initial timer offset spans exactly `[0, 10)` — the
interval swept by `Math.random() * 10` — which is a strict subset of the
full signal cycle `[0, CYCLE) = [0, 32)`.  Intersections are therefore
desynchronised only within a 10-second band, not across the whole cycle. -/
theorem timer_init_range :
    (∀ r : ℝ, 0 ≤ r → r < 1 → 0 ≤ initLightTimer r ∧ initLightTimer r < 10) ∧
    (∀ y : ℝ, 0 ≤ y → y < 10 → ∃ r : ℝ, 0 ≤ r ∧ r < 1 ∧ initLightTimer r = y) ∧
    (10:ℝ) < CYCLE := by
  refine ⟨?_, ?_, by norm_num [CYCLE, T_GREEN, T_YELLOW, T_RED_CLEAR]⟩
  · intro r h0 h1
    unfold initLightTimer
    constructor <;> nlinarith
  · intro y h0 h1
    refine ⟨y / 10, by positivity, by linarith, ?_⟩
    unfold initLightTimer
    ring

/-- Witness for `timer_init_range`: the midpoint draw lands at 5 seconds,
inside `[0, 10)`. -/
theorem timer_init_range_witness :
    0 ≤ initLightTimer (1/2) ∧ initLightTimer (1/2) < 10 :=
  (timer_init_range.1) (1/2) (by norm_num) (by norm_num)

/-! ## Network builder (`buildNetwork`, source lines 95-267)

The grid geometry is integral (block size 160, road width 12, lane offset
3), so the builder is embedded over `ℤ` and stays executable.  Road-lane
tangents enter only through `THREE.Vector3.angleTo`, which is invariant
under positive scaling, so the unnormalised chord `p2 - p1` stands in for
the normalised `getTangent` result.  Rendering-only data (road meshes,
markings, the junction's bezier control point and arc length) is not
modelled; a junction record keeps its endpoints and its graph links. -/

abbrev Vec3 := ℤ × ℤ × ℤ

def dotv (u v : Vec3) : ℤ := u.1 * v.1 + u.2.1 * v.2.1 + u.2.2 * v.2.2

def GRID_SIZE : ℕ := 3

def BLOCK_SIZE : ℤ := 160

def ROAD_WIDTH : ℤ := 12

def LANE_OFFSET : ℤ := 3

def getNodePos (x z : ℕ) : Vec3 :=
  (((x:ℤ) - 1) * BLOCK_SIZE, 0, ((z:ℤ) - 1) * BLOCK_SIZE)

/-- A ROAD lane as produced by `addRoadLane` (source lines 163-202): its id
`R_{from}_{to}` is kept structurally as the node pair, together with the
segment endpoints, the destination node (`toNodeId`) and the approach axis
tag. -/
structure RoadL where
  fromN : ℕ × ℕ
  toN : ℕ × ℕ
  p1 : Vec3
  p2 : Vec3
  dir : RoadDir
deriving DecidableEq

/-- The 24 ROAD lanes of the 3×3 grid, in the source's creation order
(source lines 204-232): for each cell, the east-west pair then the
north-south pair. -/
def gridRoads : List RoadL :=
  (List.range GRID_SIZE).flatMap (fun x =>
    (List.range GRID_SIZE).flatMap (fun z =>
      (if x < GRID_SIZE - 1 then
        [⟨(x, z), (x+1, z),
          getNodePos x z + (ROAD_WIDTH, 0, LANE_OFFSET),
          getNodePos (x+1) z + (-ROAD_WIDTH, 0, LANE_OFFSET), RoadDir.EW⟩,
         ⟨(x+1, z), (x, z),
          getNodePos (x+1) z + (-ROAD_WIDTH, 0, -LANE_OFFSET),
          getNodePos x z + (ROAD_WIDTH, 0, -LANE_OFFSET), RoadDir.EW⟩]
       else []) ++
      (if z < GRID_SIZE - 1 then
        [⟨(x, z), (x, z+1),
          getNodePos x z + (-LANE_OFFSET, 0, ROAD_WIDTH),
          getNodePos x (z+1) + (-LANE_OFFSET, 0, -ROAD_WIDTH), RoadDir.NS⟩,
         ⟨(x, z+1), (x, z),
          getNodePos x (z+1) + (LANE_OFFSET, 0, -ROAD_WIDTH),
          getNodePos x z + (LANE_OFFSET, 0, ROAD_WIDTH), RoadDir.NS⟩]
       else [])))

/-- The chord of a straight road lane; `getTangent` normalises it, but the
angle test is scale-invariant. -/
def rdir (l : RoadL) : Vec3 := l.p2 - l.p1

/-- `THREE.Vector3.angleTo` (the source's `inDir.angleTo(outDir)`):
`acos(clamp(dot(u,v) / √(|u|²·|v|²), -1, 1))`. -/
def angleTo (u v : Vec3) : ℝ :=
  Real.arccos (max (-1) (min 1
    ((dotv u v : ℝ) / Real.sqrt ((dotv u u : ℝ) * (dotv v v : ℝ)))))

/-- The junction filter `angle > 0.8π` (source line 244) in exact integer
arithmetic: for nonzero `u, v`, `acos(d/√q) > 0.8π ⟺ d/√q < cos(0.8π) =
-(1+√5)/4 ⟺ d < 0 ∧ 16d² - 6q > 0 ∧ (16d² - 6q)² > 20q²`, where `d = u·v`
and `q = |u|²·|v|²`.  `angleGt_iff_grid` below proves this Boolean equal to
the real `angleTo u v > 0.8π` test for every tangent occurring in the
grid. -/
def angleGt (u v : Vec3) : Bool :=
  decide (dotv u v < 0 ∧
    0 < 16 * (dotv u v)^2 - 6 * (dotv u u * dotv v v) ∧
    20 * (dotv u u * dotv v v)^2 < (16 * (dotv u v)^2 - 6 * (dotv u u * dotv v v))^2)

/-- Structural id of a road lane (`R_{from}_{to}`): the node pair. -/
def rid (l : RoadL) : (ℕ × ℕ) × (ℕ × ℕ) := (l.fromN, l.toN)

/-- A JUNCTION lane (source lines 250-260): id `J_{in}_{out}` kept as the
two road ids, with the curve endpoints. -/
structure JuncL where
  prevRoad : (ℕ × ℕ) × (ℕ × ℕ)
  nextRoad : (ℕ × ℕ) × (ℕ × ℕ)
  p1 : Vec3
  p2 : Vec3
deriving DecidableEq

/-- The junction-synthesis test for an ordered pair of road lanes (source
lines 239-260): `out` must originate at `in`'s destination node (the
source's `startsWith('R_' + inLane.toNodeId + '_')`, which for single-digit
grid coordinates holds exactly when `out.fromN = in.toN`), and the turn
angle must not exceed 0.8π. -/
def juncOf (i o : RoadL) : Option JuncL :=
  if o.fromN = i.toN ∧ angleGt (rdir i) (rdir o) = false then
    some ⟨rid i, rid o, i.p2, o.p1⟩
  else none

/-- All JUNCTION lanes of the built network (the double `forEach` of source
lines 235-264; junction lanes added during the pass are skipped by the
`type !== 'ROAD'` guards, so only road pairs are considered). -/
def gridJunctions : List JuncL :=
  gridRoads.flatMap (fun i => gridRoads.filterMap (juncOf i))

inductive BId
  | rd (idr : (ℕ × ℕ) × (ℕ × ℕ))
  | jn (inR outR : (ℕ × ℕ) × (ℕ × ℕ))
deriving DecidableEq

def jId (j : JuncL) : BId := BId.jn j.prevRoad j.nextRoad

/-- A junction record's `prevLanes`: exactly `[inLane.id]` (source 259). -/
def juncPrevLanes (j : JuncL) : List BId := [BId.rd j.prevRoad]

/-- A junction record's `nextLanes`: exactly `[outLane.id]` (source 258). -/
def juncNextLanes (j : JuncL) : List BId := [BId.rd j.nextRoad]

/-- A road lane's final `nextLanes`: the junction ids pushed by
`inLane.nextLanes.push(jId)` (source line 261), in inner-iteration order. -/
def roadNextLanes (l : RoadL) : List BId :=
  (gridRoads.filterMap (juncOf l)).map jId

/-- A road lane's final `prevLanes`: created empty (source line 198) and
never appended to — the junction pass pushes only onto the in-lane's
`nextLanes`. -/
def roadPrevLanes (_l : RoadL) : List BId := []

set_option maxRecDepth 10000

lemma rid_inj : ∀ a ∈ gridRoads, ∀ b ∈ gridRoads, rid a = rid b → a = b := by decide

lemma rdir_cases : ∀ l ∈ gridRoads,
    rdir l = (136, 0, 0) ∨ rdir l = (-136, 0, 0) ∨
    rdir l = (0, 0, 136) ∨ rdir l = (0, 0, -136) := by decide

lemma juncOf_some {i o : RoadL} {j : JuncL} (h : juncOf i o = some j) :
    o.fromN = i.toN ∧ angleGt (rdir i) (rdir o) = false ∧
    j = ⟨rid i, rid o, i.p2, o.p1⟩ := by
  unfold juncOf at h
  split at h
  · next hc => exact ⟨hc.1, hc.2, (Option.some_inj.mp h).symm⟩
  · exact absurd h (by simp)

lemma juncOf_mk {i o : RoadL} (h1 : o.fromN = i.toN)
    (h2 : angleGt (rdir i) (rdir o) = false) :
    juncOf i o = some ⟨rid i, rid o, i.p2, o.p1⟩ := by
  unfold juncOf
  rw [if_pos ⟨h1, h2⟩]

lemma mem_gridJunctions {j : JuncL} :
    j ∈ gridJunctions ↔ ∃ i ∈ gridRoads, ∃ o ∈ gridRoads, juncOf i o = some j := by
  unfold gridJunctions
  simp [List.mem_flatMap, List.mem_filterMap]

lemma angleTo_of_dot (u v : Vec3) (huu : dotv u u = 18496) (hvv : dotv v v = 18496) :
    (dotv u v = 18496 → angleTo u v = 0) ∧
    (dotv u v = 0 → angleTo u v = Real.pi / 2) ∧
    (dotv u v = -18496 → angleTo u v = Real.pi) := by
  refine ⟨?_, ?_, ?_⟩ <;> intro h <;> unfold angleTo <;> rw [huu, hvv, h] <;>
    push_cast <;>
    rw [show Real.sqrt ((18496:ℝ) * 18496) = 18496 from Real.sqrt_mul_self (by norm_num)]
  · norm_num [min_def, max_def, Real.arccos_one]
  · norm_num [min_def, max_def, Real.arccos_zero]
  · norm_num [min_def, max_def, Real.arccos_neg_one]

/-- The exact-arithmetic Boolean filter agrees with the real
`angleTo > 0.8π` test on every tangent direction occurring in the grid. -/
lemma angleGt_iff_grid (u v : Vec3)
    (hu : u = (136, 0, 0) ∨ u = (-136, 0, 0) ∨ u = (0, 0, 136) ∨ u = (0, 0, -136))
    (hv : v = (136, 0, 0) ∨ v = (-136, 0, 0) ∨ v = (0, 0, 136) ∨ v = (0, 0, -136)) :
    angleGt u v = false ↔ angleTo u v ≤ 0.8 * Real.pi := by
  have hpi := Real.pi_pos
  rcases hu with rfl | rfl | rfl | rfl <;> rcases hv with rfl | rfl | rfl | rfl <;>
    first
      | (rw [(angleTo_of_dot _ _ (by decide) (by decide)).1 (by decide)]
         exact ⟨fun _ => by linarith, fun _ => by decide⟩)
      | (rw [(angleTo_of_dot _ _ (by decide) (by decide)).2.1 (by decide)]
         exact ⟨fun _ => by linarith, fun _ => by decide⟩)
      | (rw [(angleTo_of_dot _ _ (by decide) (by decide)).2.2 (by decide)]
         exact ⟨fun h => absurd h (by decide), fun h => absurd h (by nlinarith)⟩)

/-- C9: for every ordered pair of ROAD lanes `(in, out)` of the built grid,
a JUNCTION lane connecting them exists if and only if `out` originates at
`in`'s destination node and the angle between `in`'s exit tangent and
`out`'s entry tangent does not exceed 0.8π — in particular no junction is
synthesized for a near-reversal pair (angle π > 0.8π). -/
theorem junction_filter (i o : RoadL) (hi : i ∈ gridRoads) (ho : o ∈ gridRoads) :
    (∃ j ∈ gridJunctions, j.prevRoad = rid i ∧ j.nextRoad = rid o) ↔
      (o.fromN = i.toN ∧ angleTo (rdir i) (rdir o) ≤ 0.8 * Real.pi) := by
  have hbr := angleGt_iff_grid (rdir i) (rdir o) (rdir_cases i hi) (rdir_cases o ho)
  constructor
  · rintro ⟨j, hjm, hp, hn⟩
    obtain ⟨i0, hi0, o0, ho0, hj0⟩ := mem_gridJunctions.mp hjm
    obtain ⟨hc1, hc2, rfl⟩ := juncOf_some hj0
    simp only [rid] at hp hn
    have hii : i0 = i := rid_inj i0 hi0 i hi hp
    have hoo : o0 = o := rid_inj o0 ho0 o ho hn
    subst hii; subst hoo
    exact ⟨hc1, hbr.mp hc2⟩
  · rintro ⟨h1, h2⟩
    exact ⟨⟨rid i, rid o, i.p2, o.p1⟩,
      mem_gridJunctions.mpr ⟨i, hi, o, ho, juncOf_mk h1 (hbr.mpr h2)⟩, rfl, rfl⟩

/-- The eastbound road lane `(0,0) → (1,0)` of the grid. -/
def roadInX : RoadL :=
  ⟨(0, 0), (1, 0), getNodePos 0 0 + (ROAD_WIDTH, 0, LANE_OFFSET),
    getNodePos 1 0 + (-ROAD_WIDTH, 0, LANE_OFFSET), RoadDir.EW⟩

/-- The eastbound road lane `(1,0) → (2,0)`: the straight continuation. -/
def roadOutX : RoadL :=
  ⟨(1, 0), (2, 0), getNodePos 1 0 + (ROAD_WIDTH, 0, LANE_OFFSET),
    getNodePos 2 0 + (-ROAD_WIDTH, 0, LANE_OFFSET), RoadDir.EW⟩

/-- Witness for `junction_filter`: the straight-through junction at node
`(1,0)` exists, so its pair satisfies the node and angle conditions. -/
theorem junction_filter_witness :
    roadOutX.fromN = roadInX.toN ∧
    angleTo (rdir roadInX) (rdir roadOutX) ≤ 0.8 * Real.pi :=
  (junction_filter roadInX roadOutX (by decide) (by decide)).mp
    ⟨⟨rid roadInX, rid roadOutX, roadInX.p2, roadOutX.p1⟩, by decide, rfl, rfl⟩

def juncX : JuncL := ⟨rid roadInX, rid roadOutX, roadInX.p2, roadOutX.p1⟩

/-- C2 counterexample: the junction `J_{R_0_0_1_0}_{R_1_0_2_0}` exists with
singleton `prevLanes`/`nextLanes` and is registered in its in-lane's
`nextLanes` — but it is *not* registered in its out-lane's `prevLanes`,
which stays empty. -/
theorem junction_prev_missing_cex :
    juncX ∈ gridJunctions ∧
    juncPrevLanes juncX = [BId.rd (rid roadInX)] ∧
    juncNextLanes juncX = [BId.rd (rid roadOutX)] ∧
    jId juncX ∈ roadNextLanes roadInX ∧
    jId juncX ∉ roadPrevLanes roadOutX := by decide

/-- C2 amended: every synthesized JUNCTION lane has `prevLanes = [in]` and
`nextLanes = [out]` (each exactly one entry) and is registered as a
successor of `in`; but it is never registered as a predecessor of `out` —
every ROAD lane's `prevLanes` remains empty. -/
theorem junction_registration (j : JuncL) (hj : j ∈ gridJunctions) :
    juncPrevLanes j = [BId.rd j.prevRoad] ∧
    juncNextLanes j = [BId.rd j.nextRoad] ∧
    (∀ i ∈ gridRoads, rid i = j.prevRoad → jId j ∈ roadNextLanes i) ∧
    (∀ o ∈ gridRoads, rid o = j.nextRoad →
      jId j ∉ roadPrevLanes o ∧ roadPrevLanes o = []) := by
  refine ⟨rfl, rfl, ?_, ?_⟩
  · intro i hi hpid
    obtain ⟨i0, hi0, o0, ho0, hj0⟩ := mem_gridJunctions.mp hj
    obtain ⟨hc1, hc2, rfl⟩ := juncOf_some hj0
    simp only [rid] at hpid
    have hii : i = i0 := rid_inj i hi i0 hi0 hpid
    subst hii
    unfold roadNextLanes
    exact List.mem_map_of_mem jId (List.mem_filterMap.mpr ⟨o0, ho0, hj0⟩)
  · intro o _ _
    exact ⟨by simp [roadPrevLanes], rfl⟩

/-- Witness for `junction_registration`: applied to the straight-through
junction at node `(1,0)`. -/
theorem junction_registration_witness :
    jId juncX ∈ roadNextLanes roadInX := by
  have h := junction_registration juncX (by decide)
  exact h.2.2.1 roadInX (by decide) (by decide)

end Traffic
